import Mathlib

/-!
Verification of the xsd-to-workato-schema converter.

The program parses an XSD file into an element tree and derives two
artifacts from it: a Mustache template (a flat list of written text
pieces) and a Workato schema (a list of nested field descriptors).
The definitions below are a shallow embedding of the functions in
src/xsd2wkt/main.go; each WriteString call of the Go template
generator becomes one `Piece`, whose `render` is exactly the string
the Go code writes, and the full template text is the concatenation
of the rendered pieces in order.
-/

namespace Xsd2Wkt

/-- One node of the parsed XSD element tree: mirrors the Go struct
`Element` with fields Name, Type and Children. -/
inductive Element : Type where
  | mk (name : String) (type : String) (children : List Element) : Element

def Element.name : Element → String
  | .mk n _ _ => n

def Element.type : Element → String
  | .mk _ t _ => t

def Element.children : Element → List Element
  | .mk _ _ c => c

/-- The top level parse result: mirrors the Go struct `XSD`. -/
structure XSD : Type where
  Elements : List Element

/-- One text piece written to the string builder by the template
generator; `render` gives the exact string the Go code writes. -/
inductive Piece : Type where
  | header : Piece
  | sectionOpen (key : String) : Piece
  | sectionClose (key : String) : Piece
  | tagOpen (name : String) : Piece
  | tagClose (name : String) : Piece
  | leafLine (name : String) (key : String) : Piece
deriving DecidableEq, Repr

/-- The exact string each piece stands for in the Go output. -/
def Piece.render : Piece → String
  | .header => "<?xml version=\"1.0\" encoding=\"UTF-8\"?>\n"
  | .sectionOpen k => "\x7b\x7b#" ++ k ++ "\x7d\x7d\n"
  | .sectionClose k => "\x7b\x7b/" ++ k ++ "\x7d\x7d\n"
  | .tagOpen n => "<" ++ n ++ ">\n"
  | .tagClose n => "</" ++ n ++ ">\n"
  | .leafLine n k => "<" ++ n ++ ">\x7b\x7b" ++ k ++ "\x7d\x7d</" ++ n ++ ">\n"

/-- True exactly on the placeholder-carrying leaf lines. -/
def Piece.isLeafLine : Piece → Bool
  | .leafLine _ _ => true
  | _ => false

/-- True exactly on the section markers, opening or closing. -/
def Piece.isSectionMarker : Piece → Bool
  | .sectionOpen _ => true
  | .sectionClose _ => true
  | _ => false

/-- The loop body of Go `generateElementTemplate` over the children of
an element whose name is `ename`: a leaf child emits one leaf line
with key `ename ++ "_" ++ child.name`; a complex child is processed by
the recursive call `generateElementTemplate(child, ename)`, whose body
is inlined here (the surrounding markers are emitted only when the
parent name passed down, here `ename`, is non-empty). -/
def emitChildren : List Element → String → List Piece
  | [], _ => []
  | .mk cname _ cchildren :: rest, ename =>
    (if cchildren.isEmpty then
      [Piece.leafLine cname (ename ++ "_" ++ cname)]
    else
      (if ename = "" then [] else
        [Piece.sectionOpen (ename ++ "_" ++ cname), Piece.tagOpen cname])
      ++ emitChildren cchildren cname
      ++ (if ename = "" then [] else
        [Piece.tagClose cname, Piece.sectionClose (ename ++ "_" ++ cname)]))
    ++ emitChildren rest ename

/-- Go `generateElementTemplate(sb, element, parentName)`: the list of
pieces it appends to the builder. -/
def generateElementTemplate (element : Element) (parentName : String) :
    List Piece :=
  (if parentName = "" then [] else
    [Piece.sectionOpen (parentName ++ "_" ++ element.name),
     Piece.tagOpen element.name])
  ++ emitChildren element.children element.name
  ++ (if parentName = "" then [] else
    [Piece.tagClose element.name,
     Piece.sectionClose (parentName ++ "_" ++ element.name)])

/-- Go `generateTemplate(xsd)` as the ordered list of written pieces:
the fixed header; if the tree is non-empty, the first element opens (and
closes) a section pair when it has children, its tag pair wraps the
recursive rendering of every top level element with empty parent name. -/
def generateTemplate (xsd : XSD) : List Piece :=
  match xsd.Elements with
  | [] => [Piece.header]
  | e0 :: _ =>
    [Piece.header]
    ++ (if e0.children.isEmpty then [] else [Piece.sectionOpen e0.name])
    ++ [Piece.tagOpen e0.name]
    ++ xsd.Elements.flatMap (fun element => generateElementTemplate element "")
    ++ [Piece.tagClose e0.name]
    ++ (if e0.children.isEmpty then [] else [Piece.sectionClose e0.name])

/-- The full template text exactly as Go builds it: the concatenation
of the rendered pieces. -/
def generateTemplateString (xsd : XSD) : String :=
  String.join ((generateTemplate xsd).map Piece.render)

/-- Go `mapXSDTypeToWorkatoType`: the switch over the XSD type tag. -/
def mapXSDTypeToWorkatoType (xsdType : String) : String :=
  if xsdType = "xs:string" then "string"
  else if xsdType = "xs:dateTime" then "date_time"
  else if xsdType = "xs:boolean" then "boolean"
  else if xsdType = "xs:integer" then "integer"
  else if xsdType = "xs:float" then "number"
  else if xsdType = "xs:double" then "number"
  else if xsdType = "xs:decimal" then "number"
  else "string"

/-- One node of the derived Workato schema: mirrors the Go struct
`WorkatoField` (the ControlType field is never set by the generator and
is kept here with its zero value). -/
inductive WorkatoField : Type where
  | mk (name : String) (label : String) (type : String) (of : String)
      (optional : Bool) (controlType : String)
      (properties : List WorkatoField) : WorkatoField

def WorkatoField.name : WorkatoField → String
  | .mk n _ _ _ _ _ _ => n

def WorkatoField.label : WorkatoField → String
  | .mk _ l _ _ _ _ _ => l

def WorkatoField.type : WorkatoField → String
  | .mk _ _ t _ _ _ _ => t

def WorkatoField.of : WorkatoField → String
  | .mk _ _ _ o _ _ _ => o

def WorkatoField.optional : WorkatoField → Bool
  | .mk _ _ _ _ o _ _ => o

def WorkatoField.properties : WorkatoField → List WorkatoField
  | .mk _ _ _ _ _ _ p => p

/-- Go `generateWorkatoSchemaForChildren(children, parent)`: one field
per child, named `parent ++ "_" ++ child.Name` (just `child.Name` when
`parent` is empty), typed by the type mapper; a child that itself has
children becomes an array-of-object field whose properties are the
recursive projection anchored at the child name alone. -/
def generateWorkatoSchemaForChildren : List Element → String → List WorkatoField
  | [], _ => []
  | .mk cname ctype cchildren :: rest, parent =>
    let fieldName := if parent = "" then cname else parent ++ "_" ++ cname
    (if cchildren.isEmpty then
      WorkatoField.mk fieldName fieldName (mapXSDTypeToWorkatoType ctype)
        "" true "" []
    else
      WorkatoField.mk fieldName fieldName "array" "object" true ""
        (generateWorkatoSchemaForChildren cchildren cname))
    :: generateWorkatoSchemaForChildren rest parent

/-- The loop body of `generateWorkatoSchemaForChildren` for one child,
as a standalone function. -/
def projectChild (child : Element) (parent : String) : WorkatoField :=
  let fieldName :=
    if parent = "" then child.name else parent ++ "_" ++ child.name
  if child.children.isEmpty then
    WorkatoField.mk fieldName fieldName (mapXSDTypeToWorkatoType child.type)
      "" true "" []
  else
    WorkatoField.mk fieldName fieldName "array" "object" true ""
      (generateWorkatoSchemaForChildren child.children child.name)

/-- The loop body of Go `generateWorkatoSchema` for one top level
element: name, label and type from the element, overridden to an
array-of-object field with projected properties when it has children. -/
def projectTopLevel (element : Element) : WorkatoField :=
  if element.children.isEmpty then
    WorkatoField.mk element.name element.name
      (mapXSDTypeToWorkatoType element.type) "" true "" []
  else
    WorkatoField.mk element.name element.name "array" "object" true ""
      (generateWorkatoSchemaForChildren element.children element.name)

/-- Go `generateWorkatoSchema(xsd)`: one field per top level element in
source order; the second component is the error result, which the Go
function always returns as nil. -/
def generateWorkatoSchema (xsd : XSD) : List WorkatoField × Option String :=
  (xsd.Elements.map projectTopLevel, none)

/-- The complex (child-bearing) elements of the tree that the two
traversals visit: every child-bearing top level element, and every
child-bearing child of a visited complex element. -/
inductive ReachableComplex (xsd : XSD) : Element → Prop where
  | top (e : Element) : e ∈ xsd.Elements → e.children ≠ [] →
      ReachableComplex xsd e
  | child (E c : Element) : ReachableComplex xsd E → c ∈ E.children →
      c.children ≠ [] → ReachableComplex xsd c

/-- A field occurs in a schema forest: either as one of the listed
fields or nested anywhere below one of them. -/
inductive FieldIn (f : WorkatoField) : List WorkatoField → Prop where
  | here (fs : List WorkatoField) : f ∈ fs → FieldIn f fs
  | nested (g : WorkatoField) (fs : List WorkatoField) : g ∈ fs →
      FieldIn f g.properties → FieldIn f fs

/-- All nodes of a forest of elements: each root and, recursively, the
nodes of its children. -/
def forestNodes : List Element → List Element
  | [] => []
  | .mk cname ctype cchildren :: rest =>
    Element.mk cname ctype cchildren
      :: (forestNodes cchildren ++ forestNodes rest)

/-- The strict descendants of an element. -/
def descendantsBelow (e : Element) : List Element :=
  forestNodes e.children

/-- The section marker events of a piece list, opening markers tagged
with true and closing markers with false, each carrying its key. -/
def sectionMarkers (ps : List Piece) : List (Bool × String) :=
  ps.filterMap fun p =>
    match p with
    | .sectionOpen k => some (true, k)
    | .sectionClose k => some (false, k)
    | _ => none

/-- Balanced, properly nested open/close event sequences with matching
keys: empty, a balanced sequence wrapped in a matching pair, or two
balanced sequences in a row. -/
inductive Balanced : List (Bool × String) → Prop where
  | nil : Balanced []
  | wrap (k : String) (l : List (Bool × String)) : Balanced l →
      Balanced ((true, k) :: (l ++ [(false, k)]))
  | append (l₁ l₂ : List (Bool × String)) : Balanced l₁ → Balanced l₂ →
      Balanced (l₁ ++ l₂)

/-- Sample tree from the specification: Customer with leaf Email. -/
def sampleEmail : Element := Element.mk "Email" "xs:string" []

def sampleCustomer : Element := Element.mk "Customer" "" [sampleEmail]

def sampleCustomerXsd : XSD := XSD.mk [sampleCustomer]

/-- Sample tree from the specification: Order > Items > Sku. -/
def sampleSku : Element := Element.mk "Sku" "xs:string" []

def sampleItems : Element := Element.mk "Items" "" [sampleSku]

def sampleOrder : Element := Element.mk "Order" "" [sampleItems]

def sampleOrderXsd : XSD := XSD.mk [sampleOrder]

/-- A tree with a single top level leaf element. -/
def flatSample : XSD := XSD.mk [Element.mk "a" "xs:string" []]

/-- A tree where a nested complex element repeats the root name. -/
def dupSample : XSD :=
  XSD.mk [Element.mk "a" "" [Element.mk "a" "" [Element.mk "b" "xs:string" []]]]

@[simp] theorem element_name_mk (n t : String) (c : List Element) :
    (Element.mk n t c).name = n := rfl

@[simp] theorem element_type_mk (n t : String) (c : List Element) :
    (Element.mk n t c).type = t := rfl

@[simp] theorem element_children_mk (n t : String) (c : List Element) :
    (Element.mk n t c).children = c := rfl

@[simp] theorem wfield_name_mk (n l t o : String) (b : Bool)
    (ct : String) (p : List WorkatoField) :
    (WorkatoField.mk n l t o b ct p).name = n := rfl

@[simp] theorem wfield_label_mk (n l t o : String) (b : Bool)
    (ct : String) (p : List WorkatoField) :
    (WorkatoField.mk n l t o b ct p).label = l := rfl

@[simp] theorem wfield_type_mk (n l t o : String) (b : Bool)
    (ct : String) (p : List WorkatoField) :
    (WorkatoField.mk n l t o b ct p).type = t := rfl

@[simp] theorem wfield_of_mk (n l t o : String) (b : Bool)
    (ct : String) (p : List WorkatoField) :
    (WorkatoField.mk n l t o b ct p).of = o := rfl

@[simp] theorem wfield_optional_mk (n l t o : String) (b : Bool)
    (ct : String) (p : List WorkatoField) :
    (WorkatoField.mk n l t o b ct p).optional = b := rfl

@[simp] theorem wfield_properties_mk (n l t o : String) (b : Bool)
    (ct : String) (p : List WorkatoField) :
    (WorkatoField.mk n l t o b ct p).properties = p := rfl

/-- `emitChildren` on a complex child is exactly the recursive call of
Go `generateElementTemplate` with the parent name set to the enclosing
element name. -/
theorem emitChildren_cons_complex (cname ctype : String)
    (cchildren : List Element) (rest : List Element) (ename : String)
    (h : cchildren ≠ []) :
    emitChildren (Element.mk cname ctype cchildren :: rest) ename =
      generateElementTemplate (Element.mk cname ctype cchildren) ename
        ++ emitChildren rest ename := by
  simp [emitChildren, generateElementTemplate, h]

/-- `emitChildren` on a leaf child emits exactly one leaf line. -/
theorem emitChildren_cons_leaf (cname ctype : String)
    (rest : List Element) (ename : String) :
    emitChildren (Element.mk cname ctype [] :: rest) ename =
      Piece.leafLine cname (ename ++ "_" ++ cname)
        :: emitChildren rest ename := by
  simp [emitChildren]

theorem generateWorkatoSchemaForChildren_cons (child : Element)
    (rest : List Element) (parent : String) :
    generateWorkatoSchemaForChildren (child :: rest) parent =
      projectChild child parent
        :: generateWorkatoSchemaForChildren rest parent := by
  cases child
  simp [generateWorkatoSchemaForChildren, projectChild]

theorem generateElementTemplate_empty_parent (e : Element) :
    generateElementTemplate e "" = emitChildren e.children e.name := by
  simp [generateElementTemplate]

/-- Anything emitted for the tail of a child list is emitted for the
whole child list. -/
theorem mem_emitChildren_tail (hd : Element) (tl : List Element)
    (en : String) (x : Piece) (hx : x ∈ emitChildren tl en) :
    x ∈ emitChildren (hd :: tl) en := by
  cases hd
  simp only [emitChildren]
  exact List.mem_append_right _ hx

/-- The leaf line of a leaf child is among the pieces emitted for any
child list containing it. -/
theorem leafLine_mem_emitChildren (cs : List Element) (en : String)
    (c : Element) (hc : c ∈ cs) (hleaf : c.children = []) :
    Piece.leafLine c.name (en ++ "_" ++ c.name) ∈ emitChildren cs en := by
  induction cs with
  | nil => cases hc
  | cons hd tl ih =>
    rcases List.mem_cons.mp hc with hc | hc
    · subst hc
      cases c with
      | mk cn ct cch =>
        simp only [element_children_mk] at hleaf
        subst hleaf
        rw [emitChildren_cons_leaf]
        exact List.mem_cons_self _ _
    · exact mem_emitChildren_tail hd tl en _ (ih hc)

/-- Anything emitted for the children of a complex child is emitted for
any child list containing that child. -/
theorem mem_emitChildren_of_complex_mem (cs : List Element) (en : String)
    (c : Element) (hc : c ∈ cs) (hcomplex : c.children ≠ [])
    (x : Piece) (hx : x ∈ emitChildren c.children c.name) :
    x ∈ emitChildren cs en := by
  induction cs with
  | nil => cases hc
  | cons hd tl ih =>
    rcases List.mem_cons.mp hc with hc | hc
    · subst hc
      cases c with
      | mk cn ct cch =>
        simp only [element_children_mk] at hcomplex
        simp only [element_children_mk, element_name_mk] at hx
        simp only [emitChildren, List.isEmpty_eq_true, hcomplex, if_false]
        refine List.mem_append_left _ ?_
        refine List.mem_append_left _ ?_
        exact List.mem_append_right _ hx
    · exact mem_emitChildren_tail hd tl en _ (ih hc)

/-- Anything emitted for the children of a reachable complex element
appears in the full template output. -/
theorem mem_generateTemplate_of_reachable (xsd : XSD) (E : Element)
    (hE : ReachableComplex xsd E) (x : Piece)
    (hx : x ∈ emitChildren E.children E.name) :
    x ∈ generateTemplate xsd := by
  induction hE with
  | top e he hne =>
    have hmem : x ∈ xsd.Elements.flatMap
        (fun element => generateElementTemplate element "") := by
      refine List.mem_flatMap.mpr ⟨e, he, ?_⟩
      rw [generateElementTemplate_empty_parent]
      exact hx
    obtain ⟨e0, rest, hcons⟩ : ∃ e0 rest, xsd.Elements = e0 :: rest := by
      cases hlist : xsd.Elements with
      | nil => rw [hlist] at he; cases he
      | cons a b => exact ⟨a, b, rfl⟩
    unfold generateTemplate
    rw [hcons]
    rw [hcons] at hmem
    simp only [List.mem_append]
    tauto
  | child E c hEr hc hcomplex ih =>
    exact ih (mem_emitChildren_of_complex_mem E.children E.name c hc
      hcomplex x hx)

/-- The projected field of a child is among the projected fields of any
child list containing it. -/
theorem projectChild_mem_gwsfc (cs : List Element) (p : String)
    (c : Element) (hc : c ∈ cs) :
    projectChild c p ∈ generateWorkatoSchemaForChildren cs p := by
  induction cs with
  | nil => cases hc
  | cons hd tl ih =>
    rw [generateWorkatoSchemaForChildren_cons]
    rcases List.mem_cons.mp hc with hc | hc
    · subst hc; exact List.mem_cons_self _ _
    · exact List.mem_cons_of_mem _ (ih hc)

/-- A member of the properties of a field occurring in a schema forest
occurs in that forest as well. -/
theorem fieldIn_of_mem_properties (fs : List WorkatoField)
    (g f : WorkatoField) (hg : FieldIn g fs) (hf : f ∈ g.properties) :
    FieldIn f fs := by
  induction hg with
  | here fs hmem => exact FieldIn.nested g fs hmem (FieldIn.here _ hf)
  | nested g' fs hmem _ ih => exact FieldIn.nested g' fs hmem ih

/-- Every reachable complex element contributes an array-of-object
field to the generated schema whose properties are exactly the
projection of its children anchored at its own name. -/
theorem reachable_field_in_schema (xsd : XSD) (E : Element)
    (hE : ReachableComplex xsd E) :
    ∃ f, FieldIn f (generateWorkatoSchema xsd).1 ∧
      f.type = "array" ∧ f.of = "object" ∧
      f.properties = generateWorkatoSchemaForChildren E.children E.name := by
  induction hE with
  | top e he hne =>
    refine ⟨projectTopLevel e, ?_, ?_⟩
    · exact FieldIn.here _ (List.mem_map.mpr ⟨e, he, rfl⟩)
    · simp [projectTopLevel, hne]
  | child E c hEr hc hcomplex ih =>
    obtain ⟨f, hfin, _, _, hfprops⟩ := ih
    refine ⟨projectChild c E.name, ?_, ?_⟩
    · refine fieldIn_of_mem_properties _ f _ hfin ?_
      rw [hfprops]
      exact projectChild_mem_gwsfc E.children E.name c hc
    · simp [projectChild, hcomplex]

/-- For a reachable complex element `E` with leaf child `c`, the
template contains the leaf line whose placeholder key is
`E.name ++ "_" ++ c.name`, and the schema contains (nested) a field
whose properties include the leaf field of the same name. -/
theorem naming_core (xsd : XSD) (E c : Element)
    (hE : ReachableComplex xsd E) (hc : c ∈ E.children)
    (hleaf : c.children = []) (hname : E.name ≠ "") :
    Piece.leafLine c.name (E.name ++ "_" ++ c.name) ∈ generateTemplate xsd ∧
    ∃ f, FieldIn f (generateWorkatoSchema xsd).1 ∧
      WorkatoField.mk (E.name ++ "_" ++ c.name) (E.name ++ "_" ++ c.name)
        (mapXSDTypeToWorkatoType c.type) "" true "" [] ∈ f.properties := by
  constructor
  · exact mem_generateTemplate_of_reachable xsd E hE _
      (leafLine_mem_emitChildren E.children E.name c hc hleaf)
  · obtain ⟨f, hfin, _, _, hfprops⟩ := reachable_field_in_schema xsd E hE
    refine ⟨f, hfin, ?_⟩
    rw [hfprops]
    have := projectChild_mem_gwsfc E.children E.name c hc
    have heq : projectChild c E.name =
        WorkatoField.mk (E.name ++ "_" ++ c.name) (E.name ++ "_" ++ c.name)
          (mapXSDTypeToWorkatoType c.type) "" true "" [] := by
      simp [projectChild, hleaf, hname]
    rw [heq] at this
    exact this

/-- The type mapper sends every input outside its seven switch cases to
the default "string". -/
theorem mapXSDTypeToWorkatoType_default (s : String)
    (hs : s ∉ (["xs:string", "xs:dateTime", "xs:boolean", "xs:integer",
      "xs:float", "xs:double", "xs:decimal"] : List String)) :
    mapXSDTypeToWorkatoType s = "string" := by
  simp only [List.mem_cons, List.not_mem_nil, or_false, not_or] at hs
  obtain ⟨h1, h2, h3, h4, h5, h6, h7⟩ := hs
  unfold mapXSDTypeToWorkatoType
  rw [if_neg h1, if_neg h2, if_neg h3, if_neg h4, if_neg h5, if_neg h6,
    if_neg h7]

/-- The type mapper only ever outputs one of its five scalar kinds. -/
theorem mapXSDTypeToWorkatoType_cases (s : String) :
    mapXSDTypeToWorkatoType s = "string" ∨
    mapXSDTypeToWorkatoType s = "date_time" ∨
    mapXSDTypeToWorkatoType s = "boolean" ∨
    mapXSDTypeToWorkatoType s = "integer" ∨
    mapXSDTypeToWorkatoType s = "number" := by
  unfold mapXSDTypeToWorkatoType
  split_ifs <;> simp

/-- Claim C1: for every element tree, every complex element E reachable
in it and every leaf child c of E (with E named, as the data model
requires of every element), the template renderer emits for c a leaf
line whose placeholder key is E.name ++ "_" ++ c.name, and the schema
projector produces (nested inside the generated schema) a field for c
whose name is the identical string E.name ++ "_" ++ c.name. -/
theorem claim_C1_naming_law (xsd : XSD) (E c : Element)
    (hE : ReachableComplex xsd E) (hc : c ∈ E.children)
    (hleaf : c.children = []) (hname : E.name ≠ "") :
    Piece.leafLine c.name (E.name ++ "_" ++ c.name) ∈ generateTemplate xsd ∧
    ∃ f, FieldIn f (generateWorkatoSchema xsd).1 ∧
      WorkatoField.mk (E.name ++ "_" ++ c.name) (E.name ++ "_" ++ c.name)
        (mapXSDTypeToWorkatoType c.type) "" true "" [] ∈ f.properties :=
  naming_core xsd E c hE hc hleaf hname

/-- Witness for claim C1 on the Customer/Email example tree. -/
theorem claim_C1_naming_law_witness :
    ReachableComplex sampleCustomerXsd sampleCustomer ∧
    sampleEmail ∈ sampleCustomer.children ∧
    sampleEmail.children = [] ∧ sampleCustomer.name ≠ "" ∧
    (Piece.leafLine sampleEmail.name
        (sampleCustomer.name ++ "_" ++ sampleEmail.name)
      ∈ generateTemplate sampleCustomerXsd ∧
    ∃ f, FieldIn f (generateWorkatoSchema sampleCustomerXsd).1 ∧
      WorkatoField.mk (sampleCustomer.name ++ "_" ++ sampleEmail.name)
        (sampleCustomer.name ++ "_" ++ sampleEmail.name)
        (mapXSDTypeToWorkatoType sampleEmail.type) "" true "" []
        ∈ f.properties) := by
  have hr : ReachableComplex sampleCustomerXsd sampleCustomer :=
    ReachableComplex.top _ (by simp [sampleCustomerXsd])
      (by simp [sampleCustomer])
  have hc : sampleEmail ∈ sampleCustomer.children := by simp [sampleCustomer]
  exact ⟨hr, hc, rfl, by decide,
    claim_C1_naming_law sampleCustomerXsd sampleCustomer sampleEmail hr hc
      rfl (by decide)⟩

/-- Claim C2: for three level nesting A > B > C with C a leaf (B named,
as the data model requires), the key emitted for C in the template and
the schema is B.name ++ "_" ++ C.name, and that key is never the
accumulated A.name ++ "_" ++ B.name ++ "_" ++ C.name. -/
theorem claim_C2_flattening_law (xsd : XSD) (A B C : Element)
    (hA : ReachableComplex xsd A) (hB : B ∈ A.children)
    (hBc : B.children ≠ []) (hC : C ∈ B.children)
    (hCleaf : C.children = []) (hBname : B.name ≠ "") :
    (Piece.leafLine C.name (B.name ++ "_" ++ C.name)
        ∈ generateTemplate xsd ∧
      ∃ f, FieldIn f (generateWorkatoSchema xsd).1 ∧
        WorkatoField.mk (B.name ++ "_" ++ C.name) (B.name ++ "_" ++ C.name)
          (mapXSDTypeToWorkatoType C.type) "" true "" [] ∈ f.properties) ∧
    B.name ++ "_" ++ C.name ≠ A.name ++ "_" ++ B.name ++ "_" ++ C.name := by
  have hBreach : ReachableComplex xsd B :=
    ReachableComplex.child A B hA hB hBc
  refine ⟨naming_core xsd B C hBreach hC hCleaf hBname, ?_⟩
  intro h
  have hlen := congrArg String.length h
  have hu : ("_" : String).length = 1 := rfl
  simp only [String.length_append, hu] at hlen
  omega

/-- Witness for claim C2 on the Order > Items > Sku example tree. -/
theorem claim_C2_flattening_law_witness :
    ReachableComplex sampleOrderXsd sampleOrder ∧
    sampleItems ∈ sampleOrder.children ∧
    sampleItems.children ≠ [] ∧ sampleSku ∈ sampleItems.children ∧
    sampleSku.children = [] ∧ sampleItems.name ≠ "" ∧
    ((Piece.leafLine sampleSku.name
          (sampleItems.name ++ "_" ++ sampleSku.name)
        ∈ generateTemplate sampleOrderXsd ∧
      ∃ f, FieldIn f (generateWorkatoSchema sampleOrderXsd).1 ∧
        WorkatoField.mk (sampleItems.name ++ "_" ++ sampleSku.name)
          (sampleItems.name ++ "_" ++ sampleSku.name)
          (mapXSDTypeToWorkatoType sampleSku.type) "" true "" []
          ∈ f.properties) ∧
      sampleItems.name ++ "_" ++ sampleSku.name ≠
        sampleOrder.name ++ "_" ++ sampleItems.name ++ "_" ++
          sampleSku.name) := by
  have hA : ReachableComplex sampleOrderXsd sampleOrder :=
    ReachableComplex.top _ (by simp [sampleOrderXsd])
      (by simp [sampleOrder])
  have hB : sampleItems ∈ sampleOrder.children := by simp [sampleOrder]
  have hBc : sampleItems.children ≠ [] := by simp [sampleItems]
  have hC : sampleSku ∈ sampleItems.children := by simp [sampleItems]
  exact ⟨hA, hB, hBc, hC, rfl, by decide,
    claim_C2_flattening_law sampleOrderXsd sampleOrder sampleItems sampleSku
      hA hB hBc hC rfl (by decide)⟩

/-- Counterexample to claim C3: the type mapper is not idempotent; on
the date-time tag its output "date_time" is mapped back to "string". -/
theorem claim_C3_counterexample :
    mapXSDTypeToWorkatoType (mapXSDTypeToWorkatoType "xs:dateTime") ≠
      mapXSDTypeToWorkatoType "xs:dateTime" := by decide

/-- Claim C3 as amended: the type mapper is total (every input maps to
one of the six kinds, and every input outside the seven switch cases
maps to "string"), but it is not idempotent: applying it twice always
yields "string", so idempotence holds exactly when the first
application already yields "string". -/
theorem claim_C3_total_not_idempotent :
    (∀ s : String, mapXSDTypeToWorkatoType s ∈ (["string", "date_time",
      "boolean", "integer", "number", "array"] : List String)) ∧
    (∀ s : String,
      s ∉ (["xs:string", "xs:dateTime", "xs:boolean", "xs:integer",
        "xs:float", "xs:double", "xs:decimal"] : List String) →
      mapXSDTypeToWorkatoType s = "string") ∧
    (∀ s : String,
      mapXSDTypeToWorkatoType (mapXSDTypeToWorkatoType s) = "string") ∧
    (∀ s : String,
      mapXSDTypeToWorkatoType (mapXSDTypeToWorkatoType s) =
          mapXSDTypeToWorkatoType s ↔
        mapXSDTypeToWorkatoType s = "string") := by
  have htwice : ∀ s : String,
      mapXSDTypeToWorkatoType (mapXSDTypeToWorkatoType s) = "string" := by
    intro s
    rcases mapXSDTypeToWorkatoType_cases s with h | h | h | h | h <;>
      rw [h] <;> decide
  refine ⟨?_, fun s hs => mapXSDTypeToWorkatoType_default s hs, htwice, ?_⟩
  · intro s
    rcases mapXSDTypeToWorkatoType_cases s with h | h | h | h | h <;>
      simp [h]
  · intro s
    rw [htwice s]
    exact eq_comm

/-- Witness for the amended claim C3 at the unknown tag xs:date. -/
theorem claim_C3_total_not_idempotent_witness :
    ("xs:date" : String) ∉ (["xs:string", "xs:dateTime", "xs:boolean",
      "xs:integer", "xs:float", "xs:double", "xs:decimal"] : List String) ∧
    mapXSDTypeToWorkatoType "xs:date" = "string" :=
  ⟨by decide, claim_C3_total_not_idempotent.2.1 "xs:date" (by decide)⟩

/-- Claim C6: the type mapper realises exactly the specified table; the
string tag maps to "string", the date-time tag to "date_time", the
boolean tag to "boolean", the integer tag to "integer", the float,
double and decimal tags to "number", and every other input, including
the empty (absent) tag, maps to "string"; being a total function it
never fails. -/
theorem claim_C6_type_mapper_table :
    mapXSDTypeToWorkatoType "xs:string" = "string" ∧
    mapXSDTypeToWorkatoType "xs:dateTime" = "date_time" ∧
    mapXSDTypeToWorkatoType "xs:boolean" = "boolean" ∧
    mapXSDTypeToWorkatoType "xs:integer" = "integer" ∧
    mapXSDTypeToWorkatoType "xs:float" = "number" ∧
    mapXSDTypeToWorkatoType "xs:double" = "number" ∧
    mapXSDTypeToWorkatoType "xs:decimal" = "number" ∧
    mapXSDTypeToWorkatoType "" = "string" ∧
    ∀ s : String,
      s ∉ (["xs:string", "xs:dateTime", "xs:boolean", "xs:integer",
        "xs:float", "xs:double", "xs:decimal"] : List String) →
      mapXSDTypeToWorkatoType s = "string" := by
  refine ⟨by decide, by decide, by decide, by decide, by decide, by decide,
    by decide, by decide, fun s hs => mapXSDTypeToWorkatoType_default s hs⟩

/-- Witness for claim C6 at the unknown tag xs:anyURI. -/
theorem claim_C6_type_mapper_table_witness :
    ("xs:anyURI" : String) ∉ (["xs:string", "xs:dateTime", "xs:boolean",
      "xs:integer", "xs:float", "xs:double", "xs:decimal"] : List String) ∧
    mapXSDTypeToWorkatoType "xs:anyURI" = "string" :=
  ⟨by decide, claim_C6_type_mapper_table.2.2.2.2.2.2.2.2 "xs:anyURI"
    (by decide)⟩

/-- Claim C7: on a tree with no top level elements the template
renderer returns exactly the fixed header (as pieces and as text) and
the schema projector returns the empty sequence with a nil error. -/
theorem claim_C7_empty_tree (xsd : XSD) (h : xsd.Elements = []) :
    generateTemplate xsd = [Piece.header] ∧
    generateTemplateString xsd =
      "<?xml version=\"1.0\" encoding=\"UTF-8\"?>\n" ∧
    generateWorkatoSchema xsd = ([], none) := by
  cases xsd with
  | mk l =>
    simp only at h
    subst h
    refine ⟨rfl, ?_, rfl⟩
    simp [generateTemplateString, generateTemplate, String.join, Piece.render]

/-- Witness for claim C7 at the empty tree. -/
theorem claim_C7_empty_tree_witness :
    (XSD.mk []).Elements = ([] : List Element) ∧
    (generateTemplate (XSD.mk []) = [Piece.header] ∧
      generateTemplateString (XSD.mk []) =
        "<?xml version=\"1.0\" encoding=\"UTF-8\"?>\n" ∧
      generateWorkatoSchema (XSD.mk []) = ([], none)) :=
  ⟨rfl, claim_C7_empty_tree (XSD.mk []) rfl⟩

/-- Claim C8: every element with a non-empty children list projects to
a field with type "array", of-key "object" and properties equal to the
projection of its children anchored at its own name, both at top level
and as a child under any parent name; the scalar type tag of the
element itself is ignored in this case. -/
theorem claim_C8_complex_projection (e : Element) (parent : String)
    (h : e.children ≠ []) :
    (projectTopLevel e).type = "array" ∧
    (projectTopLevel e).of = "object" ∧
    (projectTopLevel e).properties =
      generateWorkatoSchemaForChildren e.children e.name ∧
    (projectChild e parent).type = "array" ∧
    (projectChild e parent).of = "object" ∧
    (projectChild e parent).properties =
      generateWorkatoSchemaForChildren e.children e.name := by
  simp [projectTopLevel, projectChild, h]

/-- Witness for claim C8 at the Order element (whose scalar tag is
absent) under parent name "Root". -/
theorem claim_C8_complex_projection_witness :
    sampleOrder.children ≠ [] ∧
    ((projectTopLevel sampleOrder).type = "array" ∧
      (projectTopLevel sampleOrder).of = "object" ∧
      (projectTopLevel sampleOrder).properties =
        generateWorkatoSchemaForChildren sampleOrder.children
          sampleOrder.name ∧
      (projectChild sampleOrder "Root").type = "array" ∧
      (projectChild sampleOrder "Root").of = "object" ∧
      (projectChild sampleOrder "Root").properties =
        generateWorkatoSchemaForChildren sampleOrder.children
          sampleOrder.name) := by
  have h : sampleOrder.children ≠ [] := by simp [sampleOrder]
  exact ⟨h, claim_C8_complex_projection sampleOrder "Root" h⟩

/-- Claim C9: the schema projector is total on element trees; its error
result is always nil and it returns exactly one field per top level
element, in source order, each the projection of the element at the
same position. -/
theorem claim_C9_projector_total (xsd : XSD) (i : Nat) :
    (generateWorkatoSchema xsd).2 = none ∧
    (generateWorkatoSchema xsd).1.length = xsd.Elements.length ∧
    (generateWorkatoSchema xsd).1[i]? =
      (xsd.Elements[i]?).map projectTopLevel := by
  refine ⟨rfl, ?_, ?_⟩
  · simp [generateWorkatoSchema]
  · simp [generateWorkatoSchema, List.getElem?_map]

/-- Counterexample to claim C4: on the flat tree with the single leaf
element a, the template output contains no leaf line at all (the claim
demands one tag-wrapped placeholder per leaf); besides the header it
consists of the opening and closing tags of the first element. -/
theorem claim_C4_counterexample :
    (flatSample.Elements.all fun e => e.children.isEmpty) = true ∧
    flatSample.Elements.length = 1 ∧
    generateTemplate flatSample =
      [Piece.header, Piece.tagOpen "a", Piece.tagClose "a"] ∧
    (generateTemplate flatSample).countP Piece.isLeafLine = 0 := by
  have htmpl : generateTemplate flatSample =
      [Piece.header, Piece.tagOpen "a", Piece.tagClose "a"] := by
    simp [flatSample, generateTemplate, generateElementTemplate,
      emitChildren]
  refine ⟨by simp [flatSample], by simp [flatSample], htmpl, ?_⟩
  rw [htmpl]
  decide

/-- Claim C4 as amended: on a flat tree (no element has children) the
schema projector returns one propertyless field per element, in order,
with the kind given by the type mapper table; the template renderer
emits no section markers but also no leaf lines: besides the fixed
header its output is exactly the opening and closing tag of the first
element (and nothing when the tree is empty). -/
theorem claim_C4_flat_trees (xsd : XSD)
    (hflat : ∀ e ∈ xsd.Elements, e.children = []) :
    (generateWorkatoSchema xsd).1 = xsd.Elements.map (fun e =>
      WorkatoField.mk e.name e.name (mapXSDTypeToWorkatoType e.type)
        "" true "" []) ∧
    (generateTemplate xsd).countP Piece.isSectionMarker = 0 ∧
    (generateTemplate xsd).countP Piece.isLeafLine = 0 ∧
    generateTemplate xsd = Piece.header ::
      (match xsd.Elements with
        | [] => []
        | e0 :: _ => [Piece.tagOpen e0.name, Piece.tagClose e0.name]) := by
  have hschema : (generateWorkatoSchema xsd).1 = xsd.Elements.map (fun e =>
      WorkatoField.mk e.name e.name (mapXSDTypeToWorkatoType e.type)
        "" true "" []) := by
    unfold generateWorkatoSchema
    refine List.map_congr_left ?_
    intro e he
    simp [projectTopLevel, hflat e he]
  have hflatMap : xsd.Elements.flatMap
      (fun element => generateElementTemplate element "") = [] := by
    refine List.flatMap_eq_nil_iff.mpr ?_
    intro e he
    rw [generateElementTemplate_empty_parent, hflat e he]
    simp [emitChildren]
  have htmpl : generateTemplate xsd = Piece.header ::
      (match xsd.Elements with
        | [] => []
        | e0 :: _ => [Piece.tagOpen e0.name, Piece.tagClose e0.name]) := by
    unfold generateTemplate
    cases hlist : xsd.Elements with
    | nil => rfl
    | cons e0 rest =>
      rw [hlist] at hflatMap
      have he0 : e0.children = [] :=
        hflat e0 (hlist ▸ List.mem_cons_self e0 rest)
      simp [he0, hflatMap]
  refine ⟨hschema, ?_, ?_, htmpl⟩ <;>
    rw [htmpl] <;>
    cases xsd.Elements <;>
    simp [List.countP_cons, Piece.isSectionMarker, Piece.isLeafLine]

/-- Witness for the amended claim C4 on the flat one-leaf tree. -/
theorem claim_C4_flat_trees_witness :
    (∀ e ∈ flatSample.Elements, e.children = []) ∧
    ((generateWorkatoSchema flatSample).1 = flatSample.Elements.map (fun e =>
      WorkatoField.mk e.name e.name (mapXSDTypeToWorkatoType e.type)
        "" true "" []) ∧
    (generateTemplate flatSample).countP Piece.isSectionMarker = 0 ∧
    (generateTemplate flatSample).countP Piece.isLeafLine = 0 ∧
    generateTemplate flatSample = Piece.header ::
      (match flatSample.Elements with
        | [] => []
        | e0 :: _ => [Piece.tagOpen e0.name, Piece.tagClose e0.name])) := by
  have hflat : ∀ e ∈ flatSample.Elements, e.children = [] := by
    intro e he
    simp only [flatSample, List.mem_singleton] at he
    subst he
    rfl
  exact ⟨hflat, claim_C4_flat_trees flatSample hflat⟩

@[simp] theorem sectionMarkers_nil : sectionMarkers [] = [] := rfl

@[simp] theorem sectionMarkers_append (a b : List Piece) :
    sectionMarkers (a ++ b) = sectionMarkers a ++ sectionMarkers b := by
  simp [sectionMarkers, List.filterMap_append]

@[simp] theorem sectionMarkers_cons_header (ps : List Piece) :
    sectionMarkers (Piece.header :: ps) = sectionMarkers ps := by
  simp [sectionMarkers]

@[simp] theorem sectionMarkers_cons_sectionOpen (k : String)
    (ps : List Piece) :
    sectionMarkers (Piece.sectionOpen k :: ps) =
      (true, k) :: sectionMarkers ps := by
  simp [sectionMarkers]

@[simp] theorem sectionMarkers_cons_sectionClose (k : String)
    (ps : List Piece) :
    sectionMarkers (Piece.sectionClose k :: ps) =
      (false, k) :: sectionMarkers ps := by
  simp [sectionMarkers]

@[simp] theorem sectionMarkers_cons_tagOpen (n : String) (ps : List Piece) :
    sectionMarkers (Piece.tagOpen n :: ps) = sectionMarkers ps := by
  simp [sectionMarkers]

@[simp] theorem sectionMarkers_cons_tagClose (n : String) (ps : List Piece) :
    sectionMarkers (Piece.tagClose n :: ps) = sectionMarkers ps := by
  simp [sectionMarkers]

@[simp] theorem sectionMarkers_cons_leafLine (n k : String)
    (ps : List Piece) :
    sectionMarkers (Piece.leafLine n k :: ps) = sectionMarkers ps := by
  simp [sectionMarkers]

/-- A balanced sequence wrapped in a matching pair followed by another
balanced sequence is balanced. -/
theorem balanced_wrap_append (k : String) (l₁ l₂ : List (Bool × String))
    (h1 : Balanced l₁) (h2 : Balanced l₂) :
    Balanced ((true, k) :: (l₁ ++ ((false, k) :: l₂))) := by
  have h := Balanced.append _ _ (Balanced.wrap k l₁ h1) h2
  simpa [List.append_assoc] using h

/-- The section markers emitted for any child list are balanced. -/
theorem balanced_sectionMarkers_emitChildren (cs : List Element)
    (en : String) : Balanced (sectionMarkers (emitChildren cs en)) := by
  induction cs, en using emitChildren.induct with
  | case1 en =>
    simp only [emitChildren, sectionMarkers_nil]
    exact Balanced.nil
  | case2 cname ctype cchildren rest ename ih1 ih2 =>
    by_cases hleaf : cchildren.isEmpty
    · simpa [emitChildren, hleaf] using ih2
    · by_cases hen : ename = ""
      · subst hen
        simp only [emitChildren, hleaf, if_true, if_false,
          Bool.false_eq_true, List.nil_append, List.append_nil,
          sectionMarkers_append, reduceIte]
        exact Balanced.append _ _ ih1 ih2
      · simp [emitChildren, hleaf, hen]
        exact balanced_wrap_append _ _ _ ih1 ih2

/-- The section markers emitted for the top level loop of the template
generator are balanced. -/
theorem balanced_sectionMarkers_flatMapTop (l : List Element) :
    Balanced (sectionMarkers
      (l.flatMap fun element => generateElementTemplate element "")) := by
  induction l with
  | nil => simpa using Balanced.nil
  | cons e rest ih =>
    rw [List.flatMap_cons, sectionMarkers_append]
    refine Balanced.append _ _ ?_ ih
    rw [generateElementTemplate_empty_parent]
    exact balanced_sectionMarkers_emitChildren _ _

/-- Claim C10: for every element tree the section markers of the
rendered template are balanced and properly nested with matching keys:
the marker event sequence is generated by wrapping and concatenation of
balanced blocks. -/
theorem claim_C10_balanced_sections (xsd : XSD) :
    Balanced (sectionMarkers (generateTemplate xsd)) := by
  unfold generateTemplate
  cases hlist : xsd.Elements with
  | nil =>
    simpa using Balanced.nil
  | cons e0 rest =>
    by_cases h0 : e0.children.isEmpty
    · simpa [h0] using balanced_sectionMarkers_flatMapTop (e0 :: rest)
    · simp [h0]
      have h := Balanced.wrap e0.name _
        (balanced_sectionMarkers_flatMapTop (e0 :: rest))
      simpa using h

/-- When no node of the forest of children bears name x, the child
loop emits no opening or closing tag keyed x. -/
theorem count_tags_emitChildren (cs : List Element) (en x : String) :
    (∀ d ∈ forestNodes cs, d.name ≠ x) →
    (emitChildren cs en).count (Piece.tagOpen x) = 0 ∧
    (emitChildren cs en).count (Piece.tagClose x) = 0 := by
  induction cs, en using emitChildren.induct with
  | case1 en =>
    intro _
    simp [emitChildren]
  | case2 cname ctype cchildren rest ename ih1 ih2 =>
    intro h
    have hhead : cname ≠ x := by
      have := h (Element.mk cname ctype cchildren) (by simp [forestNodes])
      simpa using this
    have hc : ∀ d ∈ forestNodes cchildren, d.name ≠ x := by
      intro d hd
      exact h d (by simp [forestNodes, hd])
    have hr : ∀ d ∈ forestNodes rest, d.name ≠ x := by
      intro d hd
      exact h d (by simp [forestNodes, hd])
    obtain ⟨ho1, hc1⟩ := ih1 hc
    obtain ⟨ho2, hc2⟩ := ih2 hr
    by_cases hleaf : cchildren.isEmpty
    · constructor <;>
        simp [emitChildren, hleaf, List.count_cons, List.count_append,
          ho2, hc2]
    · by_cases hen : ename = ""
      · subst hen
        constructor <;>
          simp [emitChildren, hleaf, List.count_append,
            ho1, hc1, ho2, hc2]
      · constructor <;>
          simp [emitChildren, hleaf, hen, List.count_append,
            List.count_cons, ho1, hc1, ho2, hc2, hhead]

/-- When no strict descendant of any listed element bears name x, the
top level loop of the template generator emits no tag keyed x. -/
theorem count_tags_flatMapTop (l : List Element) (x : String)
    (h : ∀ e ∈ l, ∀ d ∈ forestNodes e.children, d.name ≠ x) :
    ((l.flatMap fun element => generateElementTemplate element "").count
        (Piece.tagOpen x) = 0 ∧
      (l.flatMap fun element => generateElementTemplate element "").count
        (Piece.tagClose x) = 0) := by
  induction l with
  | nil => simp
  | cons e rest ih =>
    have h1 := count_tags_emitChildren e.children e.name x
      (h e (List.mem_cons_self e rest))
    have h2 := ih fun e' he' => h e' (List.mem_cons_of_mem e he')
    constructor <;>
      simp only [List.flatMap_cons, List.count_append] <;>
      rw [generateElementTemplate_empty_parent] <;>
      simp [h1.1, h1.2, h2.1, h2.2]

/-- Counterexample to claim C5: in the tree whose root a has a nested
complex child also named a, the renderer emits two opening tags and two
closing tags keyed by the first top level element name a, not exactly
one of each. -/
theorem claim_C5_counterexample :
    dupSample.Elements.head?.map Element.name = some "a" ∧
    generateTemplate dupSample =
      [Piece.header, Piece.sectionOpen "a", Piece.tagOpen "a",
        Piece.sectionOpen "a_a", Piece.tagOpen "a",
        Piece.leafLine "b" "a_b", Piece.tagClose "a",
        Piece.sectionClose "a_a", Piece.tagClose "a",
        Piece.sectionClose "a"] ∧
    (generateTemplate dupSample).count (Piece.tagOpen "a") = 2 ∧
    (generateTemplate dupSample).count (Piece.tagClose "a") = 2 := by
  have ht : generateTemplate dupSample =
      [Piece.header, Piece.sectionOpen "a", Piece.tagOpen "a",
        Piece.sectionOpen "a_a", Piece.tagOpen "a",
        Piece.leafLine "b" "a_b", Piece.tagClose "a",
        Piece.sectionClose "a_a", Piece.tagClose "a",
        Piece.sectionClose "a"] := by
    simp [dupSample, generateTemplate, generateElementTemplate, emitChildren]
  refine ⟨rfl, ht, ?_, ?_⟩ <;> rw [ht] <;> decide

/-- Claim C5 as amended: for a non-empty tree in which no strict
descendant of a top level element shares the first element name, the
renderer emits exactly one opening and one closing tag keyed by the
first top level element name, and between them (inside the optional
section pair) renders every top level element through the recursive
emitter with empty enclosing name. -/
theorem claim_C5_root_tag_pair (xsd : XSD) (e0 : Element)
    (rest : List Element) (hne : xsd.Elements = e0 :: rest)
    (hnames : ∀ e ∈ xsd.Elements, ∀ d ∈ descendantsBelow e,
      d.name ≠ e0.name) :
    generateTemplate xsd =
      [Piece.header]
      ++ (if e0.children.isEmpty then [] else [Piece.sectionOpen e0.name])
      ++ [Piece.tagOpen e0.name]
      ++ (e0 :: rest).flatMap
          (fun element => generateElementTemplate element "")
      ++ [Piece.tagClose e0.name]
      ++ (if e0.children.isEmpty then []
          else [Piece.sectionClose e0.name]) ∧
    (generateTemplate xsd).count (Piece.tagOpen e0.name) = 1 ∧
    (generateTemplate xsd).count (Piece.tagClose e0.name) = 1 := by
  have hdecomp : generateTemplate xsd =
      [Piece.header]
      ++ (if e0.children.isEmpty then [] else [Piece.sectionOpen e0.name])
      ++ [Piece.tagOpen e0.name]
      ++ (e0 :: rest).flatMap
          (fun element => generateElementTemplate element "")
      ++ [Piece.tagClose e0.name]
      ++ (if e0.children.isEmpty then []
          else [Piece.sectionClose e0.name]) := by
    cases xsd with
    | mk l =>
      simp only at hne
      subst hne
      rfl
  have hcounts := count_tags_flatMapTop (e0 :: rest) e0.name (by
    intro e he d hd
    exact hnames e (hne ▸ he) d hd)
  refine ⟨hdecomp, ?_, ?_⟩ <;>
    rw [hdecomp] <;>
    by_cases h0 : e0.children.isEmpty <;>
    simp [h0, List.count_append, List.count_cons, hcounts.1, hcounts.2,
      beq_iff_eq, -List.flatMap_cons]

/-- Witness for the amended claim C5 on the Order > Items > Sku tree. -/
theorem claim_C5_root_tag_pair_witness :
    sampleOrderXsd.Elements = sampleOrder :: [] ∧
    (∀ e ∈ sampleOrderXsd.Elements, ∀ d ∈ descendantsBelow e,
      d.name ≠ sampleOrder.name) ∧
    (generateTemplate sampleOrderXsd =
      [Piece.header]
      ++ (if sampleOrder.children.isEmpty then []
          else [Piece.sectionOpen sampleOrder.name])
      ++ [Piece.tagOpen sampleOrder.name]
      ++ (sampleOrder :: []).flatMap
          (fun element => generateElementTemplate element "")
      ++ [Piece.tagClose sampleOrder.name]
      ++ (if sampleOrder.children.isEmpty then []
          else [Piece.sectionClose sampleOrder.name]) ∧
    (generateTemplate sampleOrderXsd).count
      (Piece.tagOpen sampleOrder.name) = 1 ∧
    (generateTemplate sampleOrderXsd).count
      (Piece.tagClose sampleOrder.name) = 1) := by
  have h1 : sampleOrderXsd.Elements = sampleOrder :: [] := rfl
  have h2 : ∀ e ∈ sampleOrderXsd.Elements, ∀ d ∈ descendantsBelow e,
      d.name ≠ sampleOrder.name := by
    intro e he d hd
    simp only [sampleOrderXsd, List.mem_singleton] at he
    subst he
    simp only [descendantsBelow, sampleOrder, sampleItems, sampleSku,
      element_children_mk, forestNodes, List.mem_cons, List.append_nil,
      List.not_mem_nil, or_false] at hd
    rcases hd with hd | hd <;> subst hd <;> decide
  exact ⟨h1, h2,
    claim_C5_root_tag_pair sampleOrderXsd sampleOrder [] h1 h2⟩

end Xsd2Wkt
